import Mathlib

/-!
Verification development for the MANEA-XPRO document-extraction pipeline.

The TypeScript sources are shallowly embedded:
* `src/services/geminiService.ts` — field normalization applied by
  `extractDataFromFile`, its error contract, and `getCompanyInfo`;
* `src/App.tsx` — the bounded-concurrency multi-file scheduler
  (`handleProcessMultiFile` / `processOneFile`) and the single-file
  progress estimator (`handleProcessSingleFile`).

Modelling conventions: JavaScript strings are Lean `String`s (lists of
characters); the regex classes are modelled character-wise, with the
Unicode letter class `\p{L}` modelled by `Char.isAlpha` and `\s` by
`Char.isWhitespace`; JavaScript numbers are modelled as exact rationals;
a JavaScript string field that may be `undefined` is an `Option String`,
and JS truthiness of a string is "present and non-empty".
-/

/-- Character-wise upper-casing, embedding JavaScript `toUpperCase()`. -/
def upperStr (s : String) : String := ⟨s.data.map Char.toUpper⟩

/-- Drop whitespace from both ends of a character list. -/
def trimList (l : List Char) : List Char :=
  ((l.dropWhile Char.isWhitespace).reverse.dropWhile Char.isWhitespace).reverse

/-- Embedding of JavaScript `trim()`. -/
def trimStr (s : String) : String := ⟨trimList s.data⟩

/-- The character class `[0-9\p{L}\s]` retained by the beneficiary-name
normalization in `extractDataFromFile` (`src/services/geminiService.ts:53`). -/
def keptChar (c : Char) : Bool := c.isDigit || c.isAlpha || c.isWhitespace

/-- The character class `[\s\-\_]` stripped from account numbers in
`extractDataFromFile` (`src/services/geminiService.ts:58`). -/
def acctStripped (c : Char) : Bool := c.isWhitespace || c == '-' || c == '_'

/-- Beneficiary-name rule: drop everything outside `keptChar`, then upper-case
(`data.beneficiaryName.replace(/[^0-9\p{L}\s]/gu, '').toUpperCase()`). -/
def normBeneficiary (s : String) : String := upperStr ⟨s.data.filter keptChar⟩

/-- Account-number rule: `data.accountNumber.replace(/[\s\-\_]/g, '')`. -/
def normAccount (s : String) : String := ⟨s.data.filter (fun c => !acctStripped c)⟩

/-- SWIFT-code rule: trim, upper-case, and append `XXX` exactly when the
result is 8 characters long (`src/services/geminiService.ts:67-74`). -/
def normSwift (s : String) : String :=
  let t := upperStr (trimStr s)
  if t.length = 8 then t ++ "XXX" else t

/-- The structured record produced by `extractDataFromFile`; each field of the
parsed JSON object may be absent (`none`) or a string. -/
structure ExtractedData where
  beneficiaryName : Option String := none
  accountNumber : Option String := none
  swiftCode : Option String := none
  bankName : Option String := none
  country : Option String := none
  city : Option String := none
  province : Option String := none
  address : Option String := none
  goodsDescription : Option String := none
deriving DecidableEq

/-- Apply a formatting rule to a field exactly when the field is truthy in
JavaScript, i.e. present and non-empty (`if (data.field) data.field = ...`). -/
def applyIfTruthy (g : String → String) : Option String → Option String
  | none => none
  | some s => if s = "" then some s else some (g s)

/-- The normalization block of `extractDataFromFile`
(`src/services/geminiService.ts:49-74`): beneficiary name filtered and
upper-cased, account number stripped, country/province/city/address
upper-cased, SWIFT code trimmed/upper-cased/padded.  `bankName` and
`goodsDescription` are not touched by the source. -/
def normalizeExtractedData (d : ExtractedData) : ExtractedData :=
  { d with
    beneficiaryName := applyIfTruthy normBeneficiary d.beneficiaryName
    accountNumber := applyIfTruthy normAccount d.accountNumber
    country := applyIfTruthy upperStr d.country
    province := applyIfTruthy upperStr d.province
    city := applyIfTruthy upperStr d.city
    address := applyIfTruthy upperStr d.address
    swiftCode := applyIfTruthy normSwift d.swiftCode }

/-- Error message thrown by `extractDataFromFile` when the model response is
empty or invalid (`src/services/geminiService.ts:43`). -/
def emptyResponseMsg : String :=
  "فشل في استخراج البيانات: استجابة فارغة أو غير صالحة من النموذج."

/-- Error message thrown by `extractDataFromFile` when the response payload
cannot be parsed into the field schema (`src/services/geminiService.ts:79`). -/
def malformedResponseMsg : String :=
  "فشل في تحليل البيانات المستخرجة: تنسيق استجابة غير متوقع من النموذج."

/-- Embedding of `extractDataFromFile` after the backing call returned
(`src/services/geminiService.ts:41-80`).  `respText` is `response.text`
(possibly absent); `parse` abstracts `JSON.parse` landing in the field
schema, returning `none` when the payload is unparseable (which the source
turns into the malformed-response error via its `catch`).  On success the
deterministic normalization block is applied before returning. -/
def extractFromResponse (parse : String → Option ExtractedData)
    (respText : Option String) : Except String ExtractedData :=
  let jsonText := trimStr (respText.getD "")
  if jsonText = "" then .error emptyResponseMsg
  else
    match parse jsonText with
    | none => .error malformedResponseMsg
    | some d => .ok (normalizeExtractedData d)

/-- Narrative returned by `getCompanyInfo` when no beneficiary name is
available (`src/services/geminiService.ts:87`). -/
def noNameMsg : String := "لم يتم توفير اسم للبحث."

/-- Narrative substituted when the backing response carried no text
(`src/services/geminiService.ts:125`). -/
def noInfoFoundMsg : String := "لم يتم العثور على معلومات إضافية."

/-- Narrative returned by `getCompanyInfo` when the backing call fails
(`src/services/geminiService.ts:137`). -/
def searchFailMsg : String :=
  "فشل في الحصول على معلومات إضافية (خطأ في الاتصال بخدمة البحث). قد يكون السبب مشكلة في الشبكة أو تجاوزًا لمعدل الاستخدام."

/-- Web metadata of a grounding chunk; both parts may be absent. -/
structure WebInfo where
  uri : Option String := none
  title : Option String := none
deriving DecidableEq

/-- One grounding chunk of the enrichment response. -/
structure GroundingChunk where
  web : Option WebInfo := none
deriving DecidableEq

/-- The enrichment backing response: optional text plus grounding chunks. -/
structure GenResponse where
  text : Option String := none
  chunks : List GroundingChunk := []
deriving DecidableEq

/-- The enrichment result: a narrative plus (uri, title) citation pairs. -/
structure EnrichmentResult where
  info : String
  sources : List (String × String)
deriving DecidableEq

/-- JavaScript truthiness of an optional string: present and non-empty. -/
def truthyOpt : Option String → Bool
  | none => false
  | some s => s != ""

/-- Citation extraction of `getCompanyInfo`
(`src/services/geminiService.ts:127-131`): map chunks to their `web` part and
keep those whose `uri` and `title` are truthy. -/
def chunkSources (chunks : List GroundingChunk) : List (String × String) :=
  chunks.filterMap fun ch =>
    match ch.web with
    | none => none
    | some w =>
        if truthyOpt w.uri && truthyOpt w.title then
          some (w.uri.getD "", w.title.getD "")
        else none

/-- Embedding of `getCompanyInfo` (`src/services/geminiService.ts:83-139`).
`backing` is the outcome of the remote call, `.error` when it throws.  The
returned flag records whether the remote call was issued at all; the guard
short-circuits before the call when the company name is empty or whitespace.
The source's `catch` makes the function total: it always resolves to a value
and never propagates the backing failure.  `bankName` and `goodsDescription`
only feed the prompt text, which is not modelled. -/
def getCompanyInfo (companyName : String) (_bankName : String)
    (_goodsDescription : Option String) (backing : Except String GenResponse) :
    EnrichmentResult × Bool :=
  if companyName = "" || trimStr companyName = "" then
    (⟨noNameMsg, []⟩, false)
  else
    match backing with
    | .error _ => (⟨searchFailMsg, []⟩, true)
    | .ok resp =>
        let info := if truthyOpt resp.text then resp.text.getD "" else noInfoFoundMsg
        (⟨info, chunkSources resp.chunks⟩, true)

/-- Job lifecycle statuses of a `ProcessableFile` (`src/App.tsx`). -/
inductive JobStatus where
  | pending
  | processing
  | done
  | error
deriving DecidableEq

/-- A file entry of the job collection, reduced to the fields the scheduler
claims are about: its identity and its lifecycle status. -/
structure PFile where
  id : Nat
  status : JobStatus
deriving DecidableEq

/-- The status write `setProcessableFiles(prev => prev.map(f => f.id === i ?
{...f, status} : f))` used throughout `handleProcessMultiFile`. -/
def setStatus (files : List PFile) (i : Nat) (st : JobStatus) : List PFile :=
  files.map fun f => if f.id = i then { f with status := st } else f

/-- The fixed concurrency ceiling of `handleProcessMultiFile`
(`src/App.tsx:701`). -/
def CONCURRENCY_LIMIT : Nat := 5

/-- Scheduler state: the observable job collection, the FIFO queue of
not-yet-admitted job ids, the ids of admitted unsettled jobs
(`activePromises`), and the ghost list of admissions in order. -/
structure SchedState where
  files : List PFile
  queue : List Nat
  active : List Nat
  admitted : List Nat
deriving DecidableEq

/-- The inner admission loop of `handleProcessMultiFile`
(`src/App.tsx:734-741`): while the queue is non-empty and fewer than
`CONCURRENCY_LIMIT` jobs are active, shift the queue head, mark it
`processing` (the first action of `processOneFile`), and add it to the active
set.  `admitted` records the admission order. -/
def admitAll : List PFile → List Nat → List Nat → List Nat → SchedState
  | files, [], active, admitted => ⟨files, [], active, admitted⟩
  | files, i :: rest, active, admitted =>
    if active.length < CONCURRENCY_LIMIT then
      admitAll (setStatus files i .processing) rest (active ++ [i]) (admitted ++ [i])
    else ⟨files, i :: rest, active, admitted⟩

/-- One observable step of the scheduler loop (`src/App.tsx:733-750`): some
active job settles — `processOneFile` writes its terminal status (`done` on
success, `error` on failure) and its promise is removed from the active set —
after which the outer loop re-enters the admission loop and backfills from the
queue. -/
inductive SchedStep : SchedState → SchedState → Prop
  | settle (s : SchedState) (i : Nat) (st : JobStatus) (hi : i ∈ s.active)
      (hst : st = .done ∨ st = .error) :
      SchedStep s (admitAll (setStatus s.files i st) s.queue (s.active.erase i) s.admitted)

/-- The initial job collection: every submitted file starts `pending`
with its id in queue order. -/
def pendingFiles (q : List Nat) : List PFile := q.map fun i => ⟨i, .pending⟩

/-- The scheduler's starting state for queue `q`: the first admission pass
over an all-pending collection with an empty active set. -/
def initState (q : List Nat) : SchedState := admitAll (pendingFiles q) q [] []

/-- States the scheduler can reach from the initial state. -/
def SchedReachable (q : List Nat) (s : SchedState) : Prop :=
  Relation.ReflTransGen SchedStep (initState q) s

/-- Number of jobs of the collection currently in `processing` status. -/
def countProcessing (files : List PFile) : Nat :=
  (files.filter fun f => f.status == .processing).length

/-- Observable events of one job's pipeline inside `processOneFile`
(`src/App.tsx:706-730`), in the order the source performs them. -/
inductive JobEvent where
  /-- the initial `status: 'processing'` write -/
  | markProcessing
  /-- the immediate write of the extracted record, before enrichment;
  it touches only `data`, leaving the status field as it was -/
  | dataWrite (d : ExtractedData)
  /-- issuance of the `getCompanyInfo` call -/
  | enrichCall (name bank : String) (goods : Option String)
  /-- the final write: `status: 'done'` with the enriched record -/
  | finalWrite (d : ExtractedData) (info : String) (sources : List (String × String))
  /-- the catch-all write: `status: 'error'` with the captured message -/
  | errorWrite (msg : String)
deriving DecidableEq

/-- The error message recorded by the catch of `processOneFile`:
`err.message || 'خطأ غير معروف أثناء المعالجة.'` (`src/App.tsx:728`). -/
def capturedMsg (e : String) : String :=
  if e = "" then "خطأ غير معروف أثناء المعالجة." else e

/-- Trace of one job through `processOneFile` (`src/App.tsx:706-730`).
`prep` is the outcome of `prepareContentPart` (normalization), `parse` and
`respText` feed the embedded `extractDataFromFile`, and `backing` feeds the
embedded `getCompanyInfo`.  A throw from normalization or extraction lands in
the catch; `getCompanyInfo` is total and cannot throw. -/
def processOneFile (prep : Except String Unit)
    (parse : String → Option ExtractedData) (respText : Option String)
    (backing : Except String GenResponse) : List JobEvent :=
  match prep with
  | .error e => [.markProcessing, .errorWrite (capturedMsg e)]
  | .ok _ =>
    match extractFromResponse parse respText with
    | .error e => [.markProcessing, .errorWrite (capturedMsg e)]
    | .ok data =>
        let name := data.beneficiaryName.getD ""
        let bank := data.bankName.getD ""
        let r := getCompanyInfo name bank data.goodsDescription backing
        [.markProcessing, .dataWrite data,
         .enrichCall name bank data.goodsDescription,
         .finalWrite data r.1.info r.1.sources]

/-- Effect of one pipeline event on the job's status field. -/
def statusStep (st : JobStatus) : JobEvent → JobStatus
  | .markProcessing => .processing
  | .finalWrite _ _ _ => .done
  | .errorWrite _ => .error
  | _ => st

/-- Job status after replaying a trace of events (jobs start `pending`). -/
def statusAfter (evs : List JobEvent) : JobStatus :=
  evs.foldl statusStep .pending

/-- Estimated analysis duration in seconds for an input of `sizeBytes` bytes
(`src/App.tsx:645-646`): `Math.ceil(5 + sizeMB * 2)` with
`sizeMB = size / (1024 * 1024)`.  JavaScript numbers are modelled as exact
rationals. -/
def estimatedSeconds (sizeBytes : Nat) : Int :=
  ⌈(5 : ℚ) + ((sizeBytes : ℚ) / (1024 * 1024)) * 2⌉

/-- Start of the simulated band (`currentSimulated = 30`, `src/App.tsx:650`). -/
def analysisStart : Nat := 30

/-- Cap of the simulated band (`maxSimulated = 95`, `src/App.tsx:651`). -/
def analysisCap : Nat := 95

/-- The base tick interval in milliseconds (`src/App.tsx:652`):
`(estimatedSeconds * 1000) / (maxSimulated - currentSimulated)`. -/
def stepTimeMs (sizeBytes : Nat) : ℚ :=
  ((estimatedSeconds sizeBytes : ℚ) * 1000) / ((analysisCap : ℚ) - (analysisStart : ℚ))

/-- The interval actually passed to `setInterval` (`src/App.tsx:663`):
`stepTime / 1.5`. -/
def tickIntervalMs (sizeBytes : Nat) : ℚ := stepTimeMs sizeBytes / (3 / 2)

/-- Displayed simulated percentage after `n` ticks (`src/App.tsx:654-663`):
the counter starts at 30 and increments each tick, but the display is only
updated while the counter is at most 95. -/
def simulatedProgress : Nat → Nat
  | 0 => analysisStart
  | n + 1 =>
    if analysisStart + (n + 1) ≤ analysisCap then analysisStart + (n + 1)
    else simulatedProgress n

/-! ## Helper lemmas -/

theorem toNat_ofNat_valid (n : Nat) (h : n.isValidChar) :
    (Char.ofNat n).toNat = n := by
  simp [Char.ofNat, h, Char.ofNatAux, Char.toNat]
  rfl

theorem toUpper_eq_self (c : Char) (h : ¬(c.toNat ≥ 97 ∧ c.toNat ≤ 122)) :
    Char.toUpper c = c := by
  dsimp only [Char.toUpper]
  rw [if_neg h]

theorem toUpper_toNat (c : Char) (h : c.toNat ≥ 97 ∧ c.toNat ≤ 122) :
    (Char.toUpper c).toNat = c.toNat - 32 := by
  dsimp only [Char.toUpper]
  rw [if_pos h]
  exact toNat_ofNat_valid _ (Or.inl (by omega))

theorem toUpper_idem (c : Char) :
    Char.toUpper (Char.toUpper c) = Char.toUpper c := by
  by_cases hc : c.toNat ≥ 97 ∧ c.toNat ≤ 122
  · exact toUpper_eq_self _ (by rw [toUpper_toNat c hc]; omega)
  · rw [toUpper_eq_self c hc]
    exact toUpper_eq_self c hc

theorem char_isAlpha_of (c : Char)
    (h : 65 ≤ c.toNat ∧ c.toNat ≤ 90 ∨ 97 ≤ c.toNat ∧ c.toNat ≤ 122) :
    c.isAlpha = true := by
  simp only [Char.isAlpha, Char.isUpper, Char.isLower, Bool.or_eq_true,
    Bool.and_eq_true, decide_eq_true_eq]
  rcases h with h | h
  · exact Or.inl ⟨h.1, h.2⟩
  · exact Or.inr ⟨h.1, h.2⟩

theorem char_isDigit_toNat (c : Char) (h : c.isDigit = true) :
    48 ≤ c.toNat ∧ c.toNat ≤ 57 := by
  simp only [Char.isDigit, Bool.and_eq_true, decide_eq_true_eq] at h
  exact ⟨h.1, h.2⟩

theorem char_isAlpha_toNat (c : Char) (h : c.isAlpha = true) :
    65 ≤ c.toNat ∧ c.toNat ≤ 90 ∨ 97 ≤ c.toNat ∧ c.toNat ≤ 122 := by
  simp only [Char.isAlpha, Char.isUpper, Char.isLower, Bool.or_eq_true,
    Bool.and_eq_true, decide_eq_true_eq] at h
  rcases h with h | h
  · exact Or.inl ⟨h.1, h.2⟩
  · exact Or.inr ⟨h.1, h.2⟩

theorem char_isWhitespace_toNat (c : Char) (h : c.isWhitespace = true) :
    c.toNat = 32 ∨ c.toNat = 9 ∨ c.toNat = 13 ∨ c.toNat = 10 := by
  simp only [Char.isWhitespace, Bool.or_eq_true, decide_eq_true_eq] at h
  rcases h with ((h | h) | h) | h <;> subst h <;> decide

theorem keptChar_toUpper (c : Char) (h : keptChar c = true) :
    keptChar (Char.toUpper c) = true := by
  by_cases hl : c.toNat ≥ 97 ∧ c.toNat ≤ 122
  · have ht := toUpper_toNat c hl
    have ha : (Char.toUpper c).isAlpha = true :=
      char_isAlpha_of _ (Or.inl (by omega))
    simp [keptChar, ha]
  · rw [toUpper_eq_self c hl]
    exact h

theorem upperStr_idem (s : String) : upperStr (upperStr s) = upperStr s := by
  simp only [upperStr, List.map_map]
  congr 1
  exact List.map_congr_left fun c _ => toUpper_idem c

theorem applyIfTruthy_eq_map (g : String → String) (hg : g "" = "")
    (o : Option String) : applyIfTruthy g o = o.map g := by
  cases o with
  | none => rfl
  | some s =>
    by_cases hs : s = ""
    · simp [applyIfTruthy, hs, hg]
    · simp [applyIfTruthy, hs]

theorem normalize_beneficiary_eq (d : ExtractedData) :
    (normalizeExtractedData d).beneficiaryName
      = d.beneficiaryName.map normBeneficiary :=
  applyIfTruthy_eq_map _ (by decide) _

theorem normalize_account_eq (d : ExtractedData) :
    (normalizeExtractedData d).accountNumber = d.accountNumber.map normAccount :=
  applyIfTruthy_eq_map _ (by decide) _

theorem normalize_swift_eq (d : ExtractedData) :
    (normalizeExtractedData d).swiftCode = d.swiftCode.map normSwift :=
  applyIfTruthy_eq_map _ (by decide) _

theorem normalize_country_eq (d : ExtractedData) :
    (normalizeExtractedData d).country = d.country.map upperStr :=
  applyIfTruthy_eq_map _ (by decide) _

theorem normalize_province_eq (d : ExtractedData) :
    (normalizeExtractedData d).province = d.province.map upperStr :=
  applyIfTruthy_eq_map _ (by decide) _

theorem normalize_city_eq (d : ExtractedData) :
    (normalizeExtractedData d).city = d.city.map upperStr :=
  applyIfTruthy_eq_map _ (by decide) _

theorem normalize_address_eq (d : ExtractedData) :
    (normalizeExtractedData d).address = d.address.map upperStr :=
  applyIfTruthy_eq_map _ (by decide) _

theorem normalize_bankName_eq (d : ExtractedData) :
    (normalizeExtractedData d).bankName = d.bankName := rfl

theorem normalize_goods_eq (d : ExtractedData) :
    (normalizeExtractedData d).goodsDescription = d.goodsDescription := rfl

theorem str_ne_iff_data (s t : String) : s ≠ t ↔ s.data ≠ t.data := by
  constructor
  · intro h hd
    apply h
    cases s
    cases t
    exact congrArg String.mk hd
  · intro h hd
    exact h (by rw [hd])

/-! ## Claim C3: SWIFT-code normalization -/

/-- Claim C3: for every record whose SWIFT code field is present, if the code
after trimming and upper-casing is exactly 8 characters long, the normalized
code is exactly those 8 characters followed by the fixed suffix "XXX"
(11 characters total); for any other length the character content is unchanged
aside from trimming and upper-casing. -/
theorem swift_code_padding (d : ExtractedData) (c : String)
    (hc : d.swiftCode = some c) :
    ((upperStr (trimStr c)).length = 8 →
      (normalizeExtractedData d).swiftCode = some (upperStr (trimStr c) ++ "XXX") ∧
      (upperStr (trimStr c) ++ "XXX").length = 11) ∧
    ((upperStr (trimStr c)).length ≠ 8 →
      (normalizeExtractedData d).swiftCode = some (upperStr (trimStr c))) := by
  have h1 : (normalizeExtractedData d).swiftCode = some (normSwift c) := by
    rw [normalize_swift_eq, hc]
    rfl
  constructor
  · intro h8
    have h2 : normSwift c = upperStr (trimStr c) ++ "XXX" := by
      dsimp only [normSwift]
      rw [if_pos h8]
    refine ⟨by rw [h1, h2], ?_⟩
    rw [String.length_append, h8]
    rfl
  · intro h8
    have h2 : normSwift c = upperStr (trimStr c) := by
      dsimp only [normSwift]
      rw [if_neg h8]
    rw [h1, h2]

theorem swift_code_padding_witness :
    (normalizeExtractedData { swiftCode := some "czcbcn2x" }).swiftCode
      = some "CZCBCN2XXXX" := by
  have h :=
    (swift_code_padding { swiftCode := some "czcbcn2x" } "czcbcn2x" rfl).1 (by decide)
  exact h.1.trans (by decide)

/-! ## Claim C10: beneficiary-name special-character stripping -/

/-- Claim C10: the beneficiary-name normalization removes every character that
is not a digit, a letter, or whitespace, then upper-cases: the normalized
value is the upper-casing of the retained subsequence, and every character of
the result is a digit, a letter, or whitespace. -/
theorem beneficiary_strips_specials (d : ExtractedData) (s : String)
    (hs : d.beneficiaryName = some s) :
    (normalizeExtractedData d).beneficiaryName
        = some (upperStr ⟨s.data.filter keptChar⟩) ∧
    ∀ c ∈ (upperStr ⟨s.data.filter keptChar⟩).data,
      c.isDigit = true ∨ c.isAlpha = true ∨ c.isWhitespace = true := by
  constructor
  · rw [normalize_beneficiary_eq, hs]
    rfl
  · intro c hcmem
    replace hcmem : c ∈ (s.data.filter keptChar).map Char.toUpper := hcmem
    rw [List.mem_map] at hcmem
    obtain ⟨c0, hc0, rfl⟩ := hcmem
    have hk : keptChar c0 = true := List.of_mem_filter hc0
    have hk2 := keptChar_toUpper c0 hk
    have hk3 : (c0.toUpper.isDigit = true ∨ c0.toUpper.isAlpha = true)
        ∨ c0.toUpper.isWhitespace = true := by
      simpa [keptChar, Bool.or_eq_true] using hk2
    tauto

theorem beneficiary_strips_specials_witness :
    (normalizeExtractedData { beneficiaryName := some "a-b!1 c" }).beneficiaryName
      = some "AB1 C" := by
  have h :=
    beneficiary_strips_specials { beneficiaryName := some "a-b!1 c" } "a-b!1 c" rfl
  exact h.1.trans (by decide)

/-! ## Claim C6: account-number stripping -/

/-- Claim C6: for every input whose account number contains whitespace, `-`,
or `_` characters, the normalized account number contains none of those
characters. -/
theorem account_number_stripped (d : ExtractedData) (s : String)
    (hs : d.accountNumber = some s)
    (_hbad : ∃ c ∈ s.data, acctStripped c = true) :
    ∀ t, (normalizeExtractedData d).accountNumber = some t →
      ∀ c ∈ t.data, ¬(c.isWhitespace = true ∨ c = '-' ∨ c = '_') := by
  intro t ht c hcmem
  rw [normalize_account_eq, hs] at ht
  have ht2 : normAccount s = t := Option.some.inj ht
  rw [← ht2] at hcmem
  replace hcmem : c ∈ s.data.filter (fun c => !acctStripped c) := hcmem
  have hstrip : acctStripped c = false := by
    have h2 : (!acctStripped c) = true := (List.mem_filter.mp hcmem).2
    simpa using h2
  intro hor
  rcases hor with h | h | h
  · simp [acctStripped, h] at hstrip
  · subst h
    simp [acctStripped] at hstrip
  · subst h
    simp [acctStripped] at hstrip

theorem account_number_stripped_witness :
    ¬(('1' : Char).isWhitespace = true ∨ ('1' : Char) = '-' ∨ ('1' : Char) = '_') :=
  account_number_stripped { accountNumber := some "12 3-4_5" } "12 3-4_5" rfl
    (by decide) "12345" (by decide) '1' (by decide)

/-! ## Claim C5: absence of present-but-empty fields (corrected) -/

theorem trimList_ne_nil (l : List Char) (h : ∃ c ∈ l, c.isWhitespace = false) :
    trimList l ≠ [] := by
  intro h0
  obtain ⟨c, hcl, hcw⟩ := h
  dsimp only [trimList] at h0
  rw [List.reverse_eq_nil_iff, List.dropWhile_eq_nil_iff] at h0
  have hall : ∀ x ∈ l.dropWhile Char.isWhitespace, x.isWhitespace = true := by
    intro x hx
    exact h0 x (List.mem_reverse.mpr hx)
  rw [← List.takeWhile_append_dropWhile (p := Char.isWhitespace) (l := l)] at hcl
  have hc : c.isWhitespace = true := by
    rcases List.mem_append.mp hcl with h1 | h1
    · exact List.mem_takeWhile_imp h1
    · exact hall c h1
  rw [hc] at hcw
  exact absurd hcw (by decide)

theorem filter_ne_nil (p : Char → Bool) (l : List Char)
    (h : ∃ c ∈ l, p c = true) : l.filter p ≠ [] := by
  intro h0
  obtain ⟨c, hcl, hc⟩ := h
  rw [List.filter_eq_nil_iff] at h0
  exact h0 c hcl (by rw [hc])

theorem isNone_map (f : String → String) (o : Option String) :
    (o.map f).isNone = o.isNone := by
  cases o <;> rfl

theorem upperStr_ne_empty (s : String) (h : s.data ≠ []) : upperStr s ≠ "" := by
  rw [str_ne_iff_data]
  show s.data.map Char.toUpper ≠ []
  simpa using h

/-- Claim C5 counterexample: a beneficiary name consisting only of punctuation
is present before normalization and present-but-empty afterwards, so a
successful extract call can return a record with a present-but-empty field. -/
theorem present_but_empty_counterexample :
    (normalizeExtractedData { beneficiaryName := some "!!!" }).beneficiaryName
      = some "" := by decide

/-- Claim C5 (amended): normalization preserves the presence of every field,
and a present field remains non-empty whenever its input value contains at
least one character retained by that field's rule — a digit, letter or
whitespace for the beneficiary name, a character outside the stripped class
for the account number, a non-whitespace character for the SWIFT code, and any
non-empty value for the remaining fields.  A present field whose value
consists only of removed characters becomes present-but-empty. -/
theorem present_fields_nonempty (d : ExtractedData) :
    ((normalizeExtractedData d).beneficiaryName.isNone = d.beneficiaryName.isNone ∧
     (normalizeExtractedData d).accountNumber.isNone = d.accountNumber.isNone ∧
     (normalizeExtractedData d).swiftCode.isNone = d.swiftCode.isNone ∧
     (normalizeExtractedData d).bankName.isNone = d.bankName.isNone ∧
     (normalizeExtractedData d).country.isNone = d.country.isNone ∧
     (normalizeExtractedData d).city.isNone = d.city.isNone ∧
     (normalizeExtractedData d).province.isNone = d.province.isNone ∧
     (normalizeExtractedData d).address.isNone = d.address.isNone ∧
     (normalizeExtractedData d).goodsDescription.isNone = d.goodsDescription.isNone) ∧
    (∀ s, d.beneficiaryName = some s → (∃ c ∈ s.data, keptChar c = true) →
      ∃ t, (normalizeExtractedData d).beneficiaryName = some t ∧ t ≠ "") ∧
    (∀ s, d.accountNumber = some s → (∃ c ∈ s.data, acctStripped c = false) →
      ∃ t, (normalizeExtractedData d).accountNumber = some t ∧ t ≠ "") ∧
    (∀ s, d.swiftCode = some s → (∃ c ∈ s.data, c.isWhitespace = false) →
      ∃ t, (normalizeExtractedData d).swiftCode = some t ∧ t ≠ "") ∧
    (∀ s, d.country = some s → s ≠ "" →
      ∃ t, (normalizeExtractedData d).country = some t ∧ t ≠ "") ∧
    (∀ s, d.city = some s → s ≠ "" →
      ∃ t, (normalizeExtractedData d).city = some t ∧ t ≠ "") ∧
    (∀ s, d.province = some s → s ≠ "" →
      ∃ t, (normalizeExtractedData d).province = some t ∧ t ≠ "") ∧
    (∀ s, d.address = some s → s ≠ "" →
      ∃ t, (normalizeExtractedData d).address = some t ∧ t ≠ "") ∧
    (∀ s, d.bankName = some s → s ≠ "" →
      ∃ t, (normalizeExtractedData d).bankName = some t ∧ t ≠ "") ∧
    (∀ s, d.goodsDescription = some s → s ≠ "" →
      ∃ t, (normalizeExtractedData d).goodsDescription = some t ∧ t ≠ "") := by
  refine ⟨⟨?_, ?_, ?_, ?_, ?_, ?_, ?_, ?_, ?_⟩, ?_, ?_, ?_, ?_, ?_, ?_, ?_, ?_, ?_⟩
  · rw [normalize_beneficiary_eq, isNone_map]
  · rw [normalize_account_eq, isNone_map]
  · rw [normalize_swift_eq, isNone_map]
  · rw [normalize_bankName_eq]
  · rw [normalize_country_eq, isNone_map]
  · rw [normalize_city_eq, isNone_map]
  · rw [normalize_province_eq, isNone_map]
  · rw [normalize_address_eq, isNone_map]
  · rw [normalize_goods_eq]
  · intro s hs hex
    refine ⟨normBeneficiary s, by rw [normalize_beneficiary_eq, hs]; rfl, ?_⟩
    exact upperStr_ne_empty _ (filter_ne_nil keptChar s.data hex)
  · intro s hs hex
    refine ⟨normAccount s, by rw [normalize_account_eq, hs]; rfl, ?_⟩
    rw [str_ne_iff_data]
    show s.data.filter (fun c => !acctStripped c) ≠ []
    refine filter_ne_nil _ s.data ?_
    obtain ⟨c, hcl, hc⟩ := hex
    exact ⟨c, hcl, by rw [hc]; rfl⟩
  · intro s hs hex
    refine ⟨normSwift s, by rw [normalize_swift_eq, hs]; rfl, ?_⟩
    have htrim : trimList s.data ≠ [] := trimList_ne_nil s.data hex
    have ht : upperStr (trimStr s) ≠ "" := upperStr_ne_empty _ htrim
    dsimp only [normSwift]
    by_cases h8 : (upperStr (trimStr s)).length = 8
    · rw [if_pos h8]
      rw [str_ne_iff_data]
      intro happ
      rcases List.append_eq_nil.mp happ with ⟨h1, _⟩
      exact (str_ne_iff_data _ _ |>.mp ht) h1
    · rw [if_neg h8]
      exact ht
  · intro s hs hne
    exact ⟨upperStr s, by rw [normalize_country_eq, hs]; rfl,
      upperStr_ne_empty s ((str_ne_iff_data s "").mp hne)⟩
  · intro s hs hne
    exact ⟨upperStr s, by rw [normalize_city_eq, hs]; rfl,
      upperStr_ne_empty s ((str_ne_iff_data s "").mp hne)⟩
  · intro s hs hne
    exact ⟨upperStr s, by rw [normalize_province_eq, hs]; rfl,
      upperStr_ne_empty s ((str_ne_iff_data s "").mp hne)⟩
  · intro s hs hne
    exact ⟨upperStr s, by rw [normalize_address_eq, hs]; rfl,
      upperStr_ne_empty s ((str_ne_iff_data s "").mp hne)⟩
  · intro s hs hne
    exact ⟨s, by rw [normalize_bankName_eq, hs], hne⟩
  · intro s hs hne
    exact ⟨s, by rw [normalize_goods_eq, hs], hne⟩

theorem present_fields_nonempty_witness :
    ∃ t, (normalizeExtractedData { beneficiaryName := some "acme 7" }).beneficiaryName
        = some t ∧ t ≠ "" :=
  (present_fields_nonempty { beneficiaryName := some "acme 7" }).2.1
    "acme 7" rfl (by decide)

/-! ## Claim C4: upper-casing of text fields (corrected) -/

/-- Claim C4 counterexample: the bank name is a present text field, yet the
normalization block never upper-cases it — `"ab"` survives in lower case, so
not every present text field of the returned record is upper-cased. -/
theorem uppercase_fields_counterexample :
    (normalizeExtractedData { bankName := some "ab" }).bankName = some "ab" ∧
    upperStr "ab" ≠ "ab" := by decide

/-- Claim C4 (amended): every present text field among beneficiary name,
country, province, city and address is upper-cased (fixed by further
upper-casing) in the returned record; the bank name is passed through
unchanged by the normalization block. -/
theorem uppercase_fields (d : ExtractedData) :
    (∀ s, (normalizeExtractedData d).beneficiaryName = some s → upperStr s = s) ∧
    (∀ s, (normalizeExtractedData d).country = some s → upperStr s = s) ∧
    (∀ s, (normalizeExtractedData d).province = some s → upperStr s = s) ∧
    (∀ s, (normalizeExtractedData d).city = some s → upperStr s = s) ∧
    (∀ s, (normalizeExtractedData d).address = some s → upperStr s = s) ∧
    (normalizeExtractedData d).bankName = d.bankName := by
  have hben : ∀ s, (normalizeExtractedData d).beneficiaryName = some s →
      upperStr s = s := by
    intro s hs
    rw [normalize_beneficiary_eq] at hs
    cases hb : d.beneficiaryName with
    | none => rw [hb] at hs; exact absurd hs (by simp)
    | some s0 =>
      rw [hb] at hs
      have : normBeneficiary s0 = s := Option.some.inj hs
      rw [← this]
      exact upperStr_idem _
  have hupper : ∀ f : ExtractedData → Option String,
      (∀ x, f (normalizeExtractedData x) = (f x).map upperStr) →
      ∀ s, f (normalizeExtractedData d) = some s → upperStr s = s := by
    intro f hf s hs
    rw [hf] at hs
    cases hb : f d with
    | none => rw [hb] at hs; exact absurd hs (by simp)
    | some s0 =>
      rw [hb] at hs
      have : upperStr s0 = s := Option.some.inj hs
      rw [← this]
      exact upperStr_idem _
  exact ⟨hben,
    hupper ExtractedData.country normalize_country_eq,
    hupper ExtractedData.province normalize_province_eq,
    hupper ExtractedData.city normalize_city_eq,
    hupper ExtractedData.address normalize_address_eq,
    normalize_bankName_eq d⟩

theorem uppercase_fields_witness : upperStr "ABC" = "ABC" :=
  (uppercase_fields { country := some "abc" }).2.1 "ABC" (by decide)

/-! ## Claim C7: extraction error contract -/

/-- Claim C7: extract fails with the empty/invalid-response error exactly when
the response text, after trimming, is empty or absent; it fails with the
distinct malformed-response error exactly when the non-empty payload cannot be
parsed into the field schema; and on success it returns the parsed record with
the deterministic normalization rules applied. -/
theorem extract_error_contract (parse : String → Option ExtractedData)
    (respText : Option String) :
    (extractFromResponse parse respText = .error emptyResponseMsg
        ↔ trimStr (respText.getD "") = "") ∧
    (extractFromResponse parse respText = .error malformedResponseMsg
        ↔ (trimStr (respText.getD "") ≠ "" ∧
           parse (trimStr (respText.getD "")) = none)) ∧
    (∀ d, trimStr (respText.getD "") ≠ "" →
        parse (trimStr (respText.getD "")) = some d →
        extractFromResponse parse respText = .ok (normalizeExtractedData d)) ∧
    emptyResponseMsg ≠ malformedResponseMsg := by
  have hmsg : emptyResponseMsg ≠ malformedResponseMsg := by decide
  by_cases h0 : trimStr (respText.getD "") = ""
  · have he : extractFromResponse parse respText = .error emptyResponseMsg := by
      dsimp only [extractFromResponse]
      rw [if_pos h0]
    refine ⟨⟨fun _ => h0, fun _ => he⟩, ⟨?_, ?_⟩, ?_, hmsg⟩
    · intro hcontra
      rw [he] at hcontra
      exact absurd (Except.error.inj hcontra) hmsg
    · intro hcontra
      exact absurd h0 hcontra.1
    · intro d hne _
      exact absurd h0 hne
  · cases hp : parse (trimStr (respText.getD "")) with
    | none =>
      have he : extractFromResponse parse respText
          = .error malformedResponseMsg := by
        dsimp only [extractFromResponse]
        rw [if_neg h0, hp]
      refine ⟨⟨?_, ?_⟩, ⟨fun _ => ⟨h0, rfl⟩, fun _ => he⟩, ?_, hmsg⟩
      · intro hcontra
        rw [he] at hcontra
        exact absurd (Except.error.inj hcontra).symm hmsg
      · intro h
        exact absurd h h0
      · intro d _ hd
        exact absurd hd (by simp)
    | some d0 =>
      have he : extractFromResponse parse respText
          = .ok (normalizeExtractedData d0) := by
        dsimp only [extractFromResponse]
        rw [if_neg h0, hp]
      refine ⟨⟨?_, ?_⟩, ⟨?_, ?_⟩, ?_, hmsg⟩
      · intro hcontra
        rw [he] at hcontra
        exact absurd hcontra (by simp)
      · intro h
        exact absurd h h0
      · intro hcontra
        rw [he] at hcontra
        exact absurd hcontra (by simp)
      · intro h
        exact absurd h.2 (by simp)
      · intro d _ hd
        rw [he, Option.some.inj hd]

theorem extract_error_contract_witness :
    extractFromResponse (fun _ => none) (some "  ")
        = Except.error emptyResponseMsg ∧
    extractFromResponse (fun _ => none) (some "x")
        = Except.error malformedResponseMsg ∧
    extractFromResponse (fun _ => some { bankName := some "B" }) (some "x")
        = Except.ok (normalizeExtractedData { bankName := some "B" }) :=
  ⟨(extract_error_contract (fun _ => none) (some "  ")).1.mpr (by decide),
   (extract_error_contract (fun _ => none) (some "x")).2.1.mpr ⟨by decide, rfl⟩,
   (extract_error_contract (fun _ => some { bankName := some "B" })
      (some "x")).2.2.1 { bankName := some "B" } (by decide) rfl⟩

/-! ## Claim C8: enrichment totality and graceful degradation -/

/-- Claim C8: the enrichment step always resolves to a value and never
propagates an error.  For an empty or whitespace-only beneficiary name it
returns the fixed no-name placeholder with an empty source list without
issuing the remote call; for every backing-call failure it returns the
explanatory placeholder and an empty source list instead of throwing. -/
theorem enrich_total (name bank : String) (goods : Option String)
    (backing : Except String GenResponse) :
    (trimStr name = "" →
      getCompanyInfo name bank goods backing = (⟨noNameMsg, []⟩, false)) ∧
    (∀ e, backing = .error e → trimStr name ≠ "" →
      getCompanyInfo name bank goods backing = (⟨searchFailMsg, []⟩, true)) := by
  constructor
  · intro h
    dsimp only [getCompanyInfo]
    rw [if_pos (by simp [h])]
  · intro e he hne
    have h1 : name ≠ "" := by
      intro h
      exact hne (by rw [h]; decide)
    dsimp only [getCompanyInfo]
    rw [if_neg (by simp [h1, hne]), he]

theorem enrich_total_witness :
    getCompanyInfo " " "BANK" none (Except.ok {}) = (⟨noNameMsg, []⟩, false) ∧
    getCompanyInfo "ACME" "BANK" none (Except.error "boom")
      = (⟨searchFailMsg, []⟩, true) :=
  ⟨(enrich_total " " "BANK" none (Except.ok {})).1 (by decide),
   (enrich_total "ACME" "BANK" none (Except.error "boom")).2 "boom" rfl (by decide)⟩

/-! ## Claim C9: single-file progress estimator -/

theorem simulatedProgress_eq (n : Nat) :
    simulatedProgress n = min (analysisStart + n) analysisCap := by
  induction n with
  | zero =>
    dsimp only [simulatedProgress]
    decide
  | succ n ih =>
    dsimp only [simulatedProgress]
    by_cases h : analysisStart + (n + 1) ≤ analysisCap
    · rw [if_pos h]
      omega
    · rw [if_neg h, ih]
      unfold analysisStart analysisCap at h ⊢
      omega

/-- Claim C9: entering the analyzing phase with an input of `sizeBytes` bytes,
the estimated duration is the ceiling of 5 seconds plus 2 seconds per megabyte
(`sizeMB = sizeBytes / 2^20`); the simulated percentage starts at 30, advances
by exactly 1 per tick while below the cap, and never exceeds 95; and the tick
interval is the estimated duration (in milliseconds) divided by the 65
percentage points to cover, then compressed by the constant factor 1.5. -/
theorem progress_estimator_spec (sizeBytes : Nat) :
    estimatedSeconds sizeBytes
        = ⌈(5 : ℚ) + 2 * ((sizeBytes : ℚ) / (1024 * 1024))⌉ ∧
    simulatedProgress 0 = 30 ∧
    (∀ n, simulatedProgress n < 95 →
        simulatedProgress (n + 1) = simulatedProgress n + 1) ∧
    (∀ n, simulatedProgress n ≤ 95) ∧
    tickIntervalMs sizeBytes
        = ((estimatedSeconds sizeBytes : ℚ) * 1000) / 65 / (3 / 2) := by
  refine ⟨?_, rfl, ?_, ?_, ?_⟩
  · unfold estimatedSeconds
    congr 1
    ring
  · intro n h
    rw [simulatedProgress_eq] at h ⊢
    rw [simulatedProgress_eq]
    unfold analysisStart analysisCap at h ⊢
    omega
  · intro n
    rw [simulatedProgress_eq]
    unfold analysisStart analysisCap
    omega
  · unfold tickIntervalMs stepTimeMs analysisStart analysisCap
    norm_num

theorem progress_estimator_spec_witness :
    simulatedProgress 1 = simulatedProgress 0 + 1 :=
  (progress_estimator_spec 0).2.2.1 0 (by decide)

/-! ## Claim C2: per-job two-phase pipeline -/

theorem statusAfter_error_trace (m : String) :
    ∀ pre, pre <+: [JobEvent.markProcessing, JobEvent.errorWrite m] →
      statusAfter pre ≠ JobStatus.done := by
  intro pre hpre
  obtain ⟨t, ht⟩ := hpre
  cases pre with
  | nil =>
    intro h
    exact absurd h (by decide)
  | cons x pre1 =>
    cases pre1 with
    | nil =>
      injection ht with h1 _
      subst h1
      intro h
      exact absurd h (by decide)
    | cons y pre2 =>
      injection ht with h1 ht2
      injection ht2 with h2 ht3
      have h3 : pre2 = [] := (List.append_eq_nil.mp ht3).1
      subst h1
      subst h2
      subst h3
      intro h
      simp [statusAfter, statusStep] at h

theorem getCompanyInfo_error_shape (name bank : String) (goods : Option String)
    (e : String) :
    (getCompanyInfo name bank goods (.error e)).1.sources = [] ∧
    ((getCompanyInfo name bank goods (.error e)).1.info = noNameMsg ∨
     (getCompanyInfo name bank goods (.error e)).1.info = searchFailMsg) := by
  dsimp only [getCompanyInfo]
  split
  · exact ⟨rfl, Or.inl rfl⟩
  · exact ⟨rfl, Or.inr rfl⟩

/-- Claim C2: if normalization or extraction throws, the job reaches terminal
`error` status with the captured message and never transitions to `done`; if
extraction succeeds, the partial record is written (with the status field
still `processing`) strictly before the enrichment call is issued, and the job
reaches terminal `done`; in particular a job whose enrichment backing call
fails still ends `done` with a placeholder narrative and no sources. -/
theorem job_pipeline_order (prep : Except String Unit)
    (parse : String → Option ExtractedData) (respText : Option String)
    (backing : Except String GenResponse) :
    (∀ e, (prep = .error e ∨
           (prep = .ok () ∧ extractFromResponse parse respText = .error e)) →
       statusAfter (processOneFile prep parse respText backing) = .error ∧
       JobEvent.errorWrite (capturedMsg e)
         ∈ processOneFile prep parse respText backing ∧
       ∀ pre, pre <+: processOneFile prep parse respText backing →
         statusAfter pre ≠ .done) ∧
    (∀ d, prep = .ok () → extractFromResponse parse respText = .ok d →
       (processOneFile prep parse respText backing)[1]? = some (.dataWrite d) ∧
       (processOneFile prep parse respText backing)[2]?
         = some (.enrichCall (d.beneficiaryName.getD "") (d.bankName.getD "")
             d.goodsDescription) ∧
       statusAfter ((processOneFile prep parse respText backing).take 2)
         = .processing ∧
       statusAfter (processOneFile prep parse respText backing) = .done) ∧
    (∀ d e, prep = .ok () → extractFromResponse parse respText = .ok d →
       backing = .error e →
       statusAfter (processOneFile prep parse respText backing) = .done ∧
       ∃ info, JobEvent.finalWrite d info []
           ∈ processOneFile prep parse respText backing ∧
         (info = noNameMsg ∨ info = searchFailMsg)) := by
  refine ⟨?_, ?_, ?_⟩
  · rintro e (hp | ⟨hp, hx⟩)
    · subst hp
      have htr : processOneFile (.error e) parse respText backing
          = [.markProcessing, .errorWrite (capturedMsg e)] := rfl
      rw [htr]
      exact ⟨rfl, by simp, statusAfter_error_trace (capturedMsg e)⟩
    · subst hp
      have htr : processOneFile (.ok ()) parse respText backing
          = [.markProcessing, .errorWrite (capturedMsg e)] := by
        dsimp only [processOneFile]
        rw [hx]
      rw [htr]
      exact ⟨rfl, by simp, statusAfter_error_trace (capturedMsg e)⟩
  · intro d hp hx
    subst hp
    have htr : processOneFile (.ok ()) parse respText backing
        = [.markProcessing, .dataWrite d,
           .enrichCall (d.beneficiaryName.getD "") (d.bankName.getD "")
             d.goodsDescription,
           .finalWrite d
             (getCompanyInfo (d.beneficiaryName.getD "") (d.bankName.getD "")
               d.goodsDescription backing).1.info
             (getCompanyInfo (d.beneficiaryName.getD "") (d.bankName.getD "")
               d.goodsDescription backing).1.sources] := by
      dsimp only [processOneFile]
      rw [hx]
    rw [htr]
    exact ⟨rfl, rfl, rfl, rfl⟩
  · intro d e hp hx he
    subst hp
    subst he
    have htr : processOneFile (.ok ()) parse respText (.error e)
        = [.markProcessing, .dataWrite d,
           .enrichCall (d.beneficiaryName.getD "") (d.bankName.getD "")
             d.goodsDescription,
           .finalWrite d
             (getCompanyInfo (d.beneficiaryName.getD "") (d.bankName.getD "")
               d.goodsDescription (.error e)).1.info
             (getCompanyInfo (d.beneficiaryName.getD "") (d.bankName.getD "")
               d.goodsDescription (.error e)).1.sources] := by
      dsimp only [processOneFile]
      rw [hx]
    obtain ⟨hs, hinfo⟩ := getCompanyInfo_error_shape (d.beneficiaryName.getD "")
      (d.bankName.getD "") d.goodsDescription e
    refine ⟨by rw [htr]; rfl, ?_⟩
    refine ⟨(getCompanyInfo (d.beneficiaryName.getD "") (d.bankName.getD "")
      d.goodsDescription (.error e)).1.info, ?_, hinfo⟩
    rw [htr, ← hs]
    simp

theorem job_pipeline_order_witness :
    statusAfter (processOneFile (Except.error "boom") (fun _ => none) none
      (Except.ok {})) = JobStatus.error ∧
    statusAfter (processOneFile (Except.ok ()) (fun _ => some {}) (some "x")
      (Except.error "down")) = JobStatus.done :=
  ⟨((job_pipeline_order (Except.error "boom") (fun _ => none) none
      (Except.ok {})).1 "boom" (Or.inl rfl)).1,
   ((job_pipeline_order (Except.ok ()) (fun _ => some {}) (some "x")
      (Except.error "down")).2.2 (normalizeExtractedData {}) "down" rfl
      rfl rfl).1⟩

/-! ## Claim C1: bounded-concurrency scheduler -/

/-- Invariant maintained by the scheduler loop. -/
structure SchedInv (q0 : List Nat) (s : SchedState) : Prop where
  idsEq : s.files.map PFile.id = q0
  lenLe : s.active.length ≤ CONCURRENCY_LIMIT
  statusIff : ∀ f ∈ s.files, (f.status = .processing ↔ f.id ∈ s.active)
  nodupQA : (s.queue ++ s.active).Nodup
  admEq : s.admitted ++ s.queue = q0

theorem setStatus_ids (files : List PFile) (i : Nat) (st : JobStatus) :
    (setStatus files i st).map PFile.id = files.map PFile.id := by
  unfold setStatus
  rw [List.map_map]
  apply List.map_congr_left
  intro f _
  by_cases h : f.id = i <;> simp [h]

theorem mem_setStatus (files : List PFile) (i : Nat) (st : JobStatus)
    (f' : PFile) (h : f' ∈ setStatus files i st) :
    ∃ f ∈ files, f' = if f.id = i then { f with status := st } else f := by
  unfold setStatus at h
  rw [List.mem_map] at h
  obtain ⟨f, hf, hEq⟩ := h
  exact ⟨f, hf, hEq.symm⟩

theorem admitAll_inv {q0 : List Nat} (files : List PFile)
    (queue active admitted : List Nat)
    (h : SchedInv q0 ⟨files, queue, active, admitted⟩) :
    SchedInv q0 (admitAll files queue active admitted) := by
  induction queue generalizing files active admitted with
  | nil => exact h
  | cons i rest ih =>
    dsimp only [admitAll]
    by_cases hlt : active.length < CONCURRENCY_LIMIT
    · rw [if_pos hlt]
      apply ih
      have hnd : i ∉ rest ++ active ∧ (rest ++ active).Nodup := by
        have := h.nodupQA
        rw [show (⟨files, i :: rest, active, admitted⟩ : SchedState).queue
              = i :: rest from rfl] at this
        rw [List.cons_append, List.nodup_cons] at this
        exact this
      have hadm : admitted ++ (i :: rest) = q0 := h.admEq
      constructor
      · rw [setStatus_ids]
        exact h.idsEq
      · show (active ++ [i]).length ≤ CONCURRENCY_LIMIT
        rw [List.length_append]
        simpa using hlt
      · intro f' hf'
        obtain ⟨f, hf, hEq⟩ := mem_setStatus files i .processing f' hf'
        show f'.status = .processing ↔ f'.id ∈ active ++ [i]
        by_cases hid : f.id = i
        · rw [if_pos hid] at hEq
          subst hEq
          simp [hid]
        · rw [if_neg hid] at hEq
          subst hEq
          rw [h.statusIff f' hf]
          rw [List.mem_append]
          simp [hid]
      · show (rest ++ (active ++ [i])).Nodup
        have hperm : ((rest ++ active) ++ [i]).Perm (i :: (rest ++ active)) :=
          List.perm_append_singleton i (rest ++ active)
        have hcons : (i :: (rest ++ active)).Nodup := by
          rw [List.nodup_cons]
          exact hnd
        have h2 : ((rest ++ active) ++ [i]).Nodup := hperm.symm.nodup hcons
        rw [← List.append_assoc]
        exact h2
      · show (admitted ++ [i]) ++ rest = q0
        rw [← hadm]
        simp
    · rw [if_neg hlt]
      exact h

theorem schedStep_inv {q0 : List Nat} {s s' : SchedState}
    (h : SchedInv q0 s) (hstep : SchedStep s s') : SchedInv q0 s' := by
  cases hstep with
  | settle i st hi hst =>
    apply admitAll_inv
    have hanodup : s.active.Nodup := h.nodupQA.of_append_right
    constructor
    · rw [setStatus_ids]
      exact h.idsEq
    · exact le_trans (List.erase_sublist i s.active).length_le h.lenLe
    · intro f' hf'
      obtain ⟨f, hf, hEq⟩ := mem_setStatus s.files i st f' hf'
      show f'.status = .processing ↔ f'.id ∈ s.active.erase i
      by_cases hid : f.id = i
      · rw [if_pos hid] at hEq
        subst hEq
        constructor
        · intro hst2
          show f.id ∈ s.active.erase i
          rcases hst with h1 | h1 <;> rw [h1] at hst2 <;> exact absurd hst2 (by simp)
        · intro hmem
          show ({ f with status := st } : PFile).status = .processing
          rw [hid] at hmem
          exact absurd hmem hanodup.not_mem_erase
      · rw [if_neg hid] at hEq
        subst hEq
        rw [h.statusIff f' hf]
        exact (List.mem_erase_of_ne hid).symm
    · exact ((List.erase_sublist i s.active).append_left s.queue).nodup h.nodupQA
    · exact h.admEq

theorem initState_inv (q0 : List Nat) (hq : q0.Nodup) :
    SchedInv q0 (initState q0) := by
  apply admitAll_inv
  constructor
  · show (pendingFiles q0).map PFile.id = q0
    unfold pendingFiles
    rw [List.map_map]
    exact List.map_id'' (fun _ => rfl) q0
  · show ([] : List Nat).length ≤ CONCURRENCY_LIMIT
    decide
  · intro f hf
    replace hf : f ∈ pendingFiles q0 := hf
    unfold pendingFiles at hf
    rw [List.mem_map] at hf
    obtain ⟨i, _, hEq⟩ := hf
    subst hEq
    constructor
    · intro h
      simp at h
    · intro h
      exact absurd h (List.not_mem_nil _)
  · show (q0 ++ []).Nodup
    simpa using hq
  · rfl

theorem schedReachable_inv {q0 : List Nat} {s : SchedState} (hq : q0.Nodup)
    (hr : SchedReachable q0 s) : SchedInv q0 s := by
  induction hr with
  | refl => exact initState_inv q0 hq
  | tail _ hstep ih => exact schedStep_inv ih hstep

theorem admitAll_active_mono (files : List PFile)
    (queue active admitted : List Nat) (i : Nat) (hi : i ∈ active) :
    i ∈ (admitAll files queue active admitted).active := by
  induction queue generalizing files active admitted with
  | nil => exact hi
  | cons j rest ih =>
    dsimp only [admitAll]
    by_cases hlt : active.length < CONCURRENCY_LIMIT
    · rw [if_pos hlt]
      exact ih _ _ _ (by rw [List.mem_append]; exact Or.inl hi)
    · rw [if_neg hlt]
      exact hi

theorem admitAll_admitted_mono (files : List PFile)
    (queue active admitted : List Nat) (i : Nat) (hi : i ∈ admitted) :
    i ∈ (admitAll files queue active admitted).admitted := by
  induction queue generalizing files active admitted with
  | nil => exact hi
  | cons j rest ih =>
    dsimp only [admitAll]
    by_cases hlt : active.length < CONCURRENCY_LIMIT
    · rw [if_pos hlt]
      exact ih _ _ _ (by rw [List.mem_append]; exact Or.inl hi)
    · rw [if_neg hlt]
      exact hi

theorem admitAll_head (files : List PFile) (i : Nat)
    (rest active admitted : List Nat)
    (hlt : active.length < CONCURRENCY_LIMIT) :
    i ∈ (admitAll files (i :: rest) active admitted).active ∧
    i ∈ (admitAll files (i :: rest) active admitted).admitted := by
  dsimp only [admitAll]
  rw [if_pos hlt]
  constructor
  · exact admitAll_active_mono _ _ _ _ i (by simp)
  · exact admitAll_admitted_mono _ _ _ _ i (by simp)

/-- Claim C1: in every state the multi-file scheduler can reach, at most
`CONCURRENCY_LIMIT = 5` jobs are in `processing` status simultaneously; the
admitted jobs followed by the still-queued jobs are exactly the original
queue, so admission is in FIFO order; and whenever an active job settles while
the queue is non-empty, the queue head is admitted (becomes active and
admitted) in the resulting state — the settled job frees its slot for the
next queued job. -/
theorem scheduler_bounded_concurrency (q0 : List Nat) (hq : q0.Nodup)
    (s : SchedState) (hr : SchedReachable q0 s) :
    countProcessing s.files ≤ CONCURRENCY_LIMIT ∧
    s.admitted ++ s.queue = q0 ∧
    (∀ s', SchedStep s s' → ∀ i rest, s.queue = i :: rest →
      i ∈ s'.active ∧ i ∈ s'.admitted) := by
  have hinv := schedReachable_inv hq hr
  refine ⟨?_, hinv.admEq, ?_⟩
  · have hsub : ((s.files.filter fun f => f.status == .processing).map PFile.id)
        ⊆ s.active := by
      intro x hx
      rw [List.mem_map] at hx
      obtain ⟨f, hf, hEq⟩ := hx
      subst hEq
      have hmem := List.mem_filter.mp hf
      have hproc : f.status = .processing := by simpa using hmem.2
      exact (hinv.statusIff f hmem.1).mp hproc
    have hnd : ((s.files.filter fun f => f.status == .processing).map
        PFile.id).Nodup := by
      have hidnodup : (s.files.map PFile.id).Nodup := by
        rw [hinv.idsEq]
        exact hq
      exact ((List.filter_sublist s.files).map PFile.id).nodup hidnodup
    calc countProcessing s.files
        = ((s.files.filter fun f => f.status == .processing).map
            PFile.id).length := by
          rw [List.length_map]
          rfl
      _ ≤ s.active.length := (List.subperm_of_subset hnd hsub).length_le
      _ ≤ CONCURRENCY_LIMIT := hinv.lenLe
  · intro s' hstep i rest hqueue
    cases hstep with
    | settle j st hj hst =>
      have hlen : 0 < s.active.length := List.length_pos_of_mem hj
      have herase : (s.active.erase j).length = s.active.length - 1 :=
        List.length_erase_of_mem hj
      have hlt : (s.active.erase j).length < CONCURRENCY_LIMIT := by
        have := hinv.lenLe
        unfold CONCURRENCY_LIMIT at *
        omega
      rw [hqueue]
      exact admitAll_head _ i rest _ _ hlt

theorem scheduler_bounded_concurrency_witness :
    countProcessing (initState [0, 1, 2, 3, 4, 5]).files ≤ CONCURRENCY_LIMIT ∧
    (initState [0, 1, 2, 3, 4, 5]).admitted
        ++ (initState [0, 1, 2, 3, 4, 5]).queue = [0, 1, 2, 3, 4, 5] :=
  have h := scheduler_bounded_concurrency [0, 1, 2, 3, 4, 5] (by decide) _
    Relation.ReflTransGen.refl
  ⟨h.1, h.2.1⟩
